import Mathlib

set_option linter.unusedVariables false
set_option linter.unreachableTactic false
set_option linter.unusedTactic false

/-!
# Verification of the ai-util core against its specification

Shallow embedding of the conversation/token-budget state machine, the
retry-with-backoff-and-fallback controller, the request-default logic and
the replicate streaming adapter of the ztkent/ai-util repository, together
with proofs settling the frozen claims about them.

Modelling conventions:
* Go slices become `List`, Go strings become `String`, Go non-negative
  integer quantities (token counts, nanosecond durations) become `Nat`;
  fields that the code compares with `<= 0` keep their sign as `Int`.
* `float64` temperatures are modelled as `Rat`: the code only compares them
  with literal `0` and copies them, so no floating-point rounding is involved.
* Methods that mutate a struct through a pointer become functions returning
  the post-state next to their Go return value.
* External collaborators (the tiktoken tokenizer, the vendor wire clients)
  are parameters of the definitions that call them.
-/

namespace AiUtil

/-- `types.Role` from `src/types/message.go`. -/
inductive Role
  | system
  | user
  | assistant
  | tool
deriving DecidableEq, Repr

/-- `types.Message` from `src/types/message.go`, restricted to the fields the
verified code paths read: the role and the plain-text payload (`GetText`
returns `TextData` for text messages). -/
structure Message where
  role : Role
  textData : String
deriving DecidableEq, Repr

end AiUtil

namespace PkgAiutil

/-- `openai.ChatCompletionMessage` as used by `src/pkg/aiutil/conversation.go`:
a role string and a content string. -/
structure ChatMessage where
  role : String
  content : String
deriving DecidableEq, Repr

/-- The `Conversation` struct of `src/pkg/aiutil/conversation.go` (the fields
`RagEnabled` and `id` play no part in the verified operations). -/
structure Conversation where
  messages : List ChatMessage
  tokenCount : Nat
  maxTokens : Nat
deriving DecidableEq, Repr

/-- `Conversation.Append` from `src/pkg/aiutil/conversation.go` lines 52-66.
`est` stands for `EstimateMessageTokens` (the external tiktoken tokenizer,
which can fail while loading its encoding).  Returns the post-state next to
the Go error value: the Go method mutates the receiver only on the success
path, after both checks have passed. -/
def Append (est : ChatMessage → Except String Nat) (c : Conversation) (m : ChatMessage) :
    Conversation × Except String Unit :=
  match est m with
  | Except.error e => (c, Except.error e)
  | Except.ok tokCount =>
    let attemptedTokens := c.tokenCount + tokCount
    if c.maxTokens < attemptedTokens then
      (c, Except.error "Max tokens exceeded")
    else
      ({ c with tokenCount := c.tokenCount + tokCount,
                messages := c.messages ++ [m] }, Except.ok ())

/-- `Conversation.SeedConversation` from `src/pkg/aiutil/conversation.go`
lines 68-80.  The Go code ranges over a `map[string]string`; the embedding
takes the pairs as a list in iteration order.  Both `Append` return values
are discarded, exactly as in the source. -/
def SeedConversation (est : ChatMessage → Except String Nat) (c : Conversation)
    (pairs : List (String × String)) : Conversation :=
  pairs.foldl
    (fun conv p =>
      let conv1 := (Append est conv { role := "user", content := p.1 }).1
      (Append est conv1 { role := "assistant", content := p.2 }).1)
    c

/-- A concrete byte-count stand-in for the external tokenizer, used to build
explicit executions of `Append` and `SeedConversation`. -/
def estBytes : ChatMessage → Except String Nat :=
  fun m => Except.ok m.content.utf8ByteSize

/-- Empty conversation with a budget of 5 tokens under `estBytes`. -/
def convShort : Conversation := { messages := [], tokenCount := 0, maxTokens := 5 }

/-- A message that fits the `convShort` budget under `estBytes` (2 tokens). -/
def msgHi : ChatMessage := { role := "user", content := "hi" }

/-- A message that exceeds the `convShort` budget under `estBytes` (8 tokens). -/
def msgLong : ChatMessage := { role := "user", content := "aaaaaaaa" }

/-- Seed-conversation starting point: system prompt only, as built by
`NewConversation`; 3 tokens used of an 8-token budget under `estBytes`. -/
def convSeed : Conversation :=
  { messages := [{ role := "system", content := "sys" }], tokenCount := 3, maxTokens := 8 }

end PkgAiutil

namespace AiUtil

/-- The per-provider token estimator shared by the replicate and google
adapters (`EstimateTokens` in `src/providers/replicate/replicate.go` lines
178-187): the sum over the messages of `len(text) / 4`, with `len` counting
bytes. -/
def charEst : List Message → Nat
  | [] => 0
  | m :: rest => m.textData.utf8ByteSize / 4 + charEst rest

/-- The modern `Conversation` struct of `src/conversation.go`, restricted to
the fields the verified operations touch (`ID`, timestamps and metadata are
inert bookkeeping). -/
structure Conversation where
  messages : List Message
  maxTokens : Nat
  estimatedTokens : Nat
deriving DecidableEq, Repr

/-- `Conversation.AddMessage` from `src/conversation.go` lines 71-97: the
message is always appended; then, only when a client is attached
(`c.client != nil`) and its `EstimateTokens` call on the singleton list
succeeds (it can fail, e.g. `ModelNotFound` when the chosen default model
resolves to no provider), `estimatedTokens` grows by the returned estimate —
on `client == nil` or an estimation error the count is left untouched.
`client` is the optional attached client reduced to the fallible estimator
this method calls; the Go method always returns `nil`. -/
def addMessage (client : Option (List Message → Except String Nat))
    (c : Conversation) (m : Message) : Conversation :=
  let c1 := { c with messages := c.messages ++ [m] }
  match client with
  | none => c1
  | some est =>
    match est [m] with
    | Except.error _ => c1
    | Except.ok tokens => { c1 with estimatedTokens := c1.estimatedTokens + tokens }

/-- `Conversation.removeOldestNonSystemMessage` from `src/conversation.go`
lines 186-195: drop the first message that is removable (any message when
`preserveSystem` is false, the first non-system message otherwise); `none`
models the `"no removable messages found"` error. -/
def removeOldestNonSystem (preserveSystem : Bool) : List Message → Option (List Message)
  | [] => none
  | m :: rest =>
    if preserveSystem = false ∨ m.role ≠ Role.system then
      some rest
    else
      (removeOldestNonSystem preserveSystem rest).map (fun r => m :: r)

/-- Result of `Conversation.TruncateToFit`: success carries the final
estimate written back to `estimatedTokens`; `tokenLimitExceeded` is the
`ErrCodeTokenLimitExceeded` return; `noRemovable` is the error propagated
from `removeOldestNonSystemMessage`. -/
inductive TruncResult
  | ok (tokens : Nat)
  | tokenLimitExceeded
  | noRemovable
deriving DecidableEq, Repr

/-- The eviction loop of `Conversation.TruncateToFit` from
`src/conversation.go` lines 161-181, acting on the message list (`est` is
`client.EstimateTokens`, total for the registered providers).  Returns the
message list as left by the loop together with the loop outcome.  Note the
source checks `len(c.Messages) == 0 || (preserveSystem && len == 1)` right
after a removal, before re-estimating. -/
def truncateToFit (est : List Message → Nat) (maxT : Nat) (ps : Bool)
    (msgs : List Message) : List Message × TruncResult :=
  if est msgs ≤ maxT then
    (msgs, TruncResult.ok (est msgs))
  else
    match h : removeOldestNonSystem ps msgs with
    | none => (msgs, TruncResult.noRemovable)
    | some msgs1 =>
      if msgs1.length = 0 ∨ (ps = true ∧ msgs1.length = 1) then
        (msgs1, TruncResult.tokenLimitExceeded)
      else
        truncateToFit est maxT ps msgs1
termination_by msgs.length
decreasing_by
  simp_wf
  have hlen : ∀ (l l1 : List Message),
      removeOldestNonSystem ps l = some l1 → l1.length < l.length := by
    intro l
    induction l with
    | nil => intro l1 hl; simp [removeOldestNonSystem] at hl
    | cons a rest ih =>
      intro l1 hl
      rw [removeOldestNonSystem] at hl
      by_cases hc : ps = false ∨ a.role ≠ Role.system
      · simp [hc] at hl
        simp [← hl]
      · simp [hc] at hl
        obtain ⟨r, hr, heq⟩ := hl
        have := ih r hr
        simp [← heq]
        omega
  exact hlen msgs msgs1 h

/-- `k`-fold iteration of `removeOldestNonSystemMessage`, used to phrase
"the `k` oldest non-preserved messages are gone, oldest first". -/
def removeIter (ps : Bool) : Nat → List Message → Option (List Message)
  | 0, msgs => some msgs
  | k + 1, msgs =>
    match removeOldestNonSystem ps msgs with
    | none => none
    | some msgs1 => removeIter ps k msgs1

/-- Sum of the per-message token estimates of the messages present, the
quantity the specification says `estimatedTokens` always equals. -/
def sumEst (est : List Message → Nat) (msgs : List Message) : Nat :=
  (msgs.map (fun m => est [m])).sum

/-- The conversation invariant claimed by the specification: the running
count equals the sum of the per-message estimates of the messages present. -/
@[reducible] def tokenInvariant (est : List Message → Nat) (c : Conversation) : Prop :=
  c.estimatedTokens = sumEst est c.messages

/-- `Conversation.TruncateToFit` at the struct level: the loop mutates
`c.Messages` in place; `estimatedTokens` is assigned only on the successful
break out of the loop (`src/conversation.go` lines 167-169). -/
def truncateToFitConv (est : List Message → Nat) (ps : Bool) (c : Conversation) :
    Conversation × TruncResult :=
  match truncateToFit est c.maxTokens ps c.messages with
  | (msgs1, TruncResult.ok t) =>
    ({ c with messages := msgs1, estimatedTokens := t }, TruncResult.ok t)
  | (msgs1, r) => ({ c with messages := msgs1 }, r)

/-- System message worth 1 token under `charEst`. -/
def msgSys : Message := { role := Role.system, textData := "aaaa" }

/-- User message worth 3 tokens under `charEst`. -/
def msgUserBig : Message := { role := Role.user, textData := "aaaaaaaaaaaa" }

/-- User message worth 1 token under `charEst`. -/
def msgUserSmall : Message := { role := Role.user, textData := "aaaa" }

/-- Conversation over budget whose single evictable message, once removed,
leaves only the preserved system message, which fits the budget. -/
def convGuard : Conversation :=
  { messages := [msgSys, msgUserBig], maxTokens := 2, estimatedTokens := 4 }

/-! ### Retry controller (`src/unnamed/part_016`) -/

/-- `strings.ToLower`, as character-wise lowering (the error strings the
classifier sees are ASCII, where Go's Unicode lowering and `Char.toLower`
agree). -/
def toLowerStr (s : String) : String :=
  String.mk (s.data.map Char.toLower)

/-- `strings.Contains` on character lists. -/
def hasSubList (pat : List Char) : List Char → Bool
  | [] => pat.isEmpty
  | c :: rest => pat.isPrefixOf (c :: rest) || hasSubList pat rest

/-- `strings.Contains(s, pat)`. -/
def containsStr (s pat : String) : Bool :=
  hasSubList pat.toList s.toList

/-- The non-retryable error substrings of `IsRetryableError`
(`src/unnamed/part_016` lines 170-178). -/
def nonRetryablePatterns : List String :=
  ["invalid_api_key", "authentication", "unauthorized", "permission denied",
   "invalid request", "bad request", "not found"]

/-- The retryable error substrings of `IsRetryableError`
(`src/unnamed/part_016` lines 187-200). -/
def retryablePatterns : List String :=
  ["429", "500", "502", "503", "504", "timeout", "deadline exceeded",
   "connection", "rate", "quota", "server_error", "temporarily unavailable"]

/-- `IsRetryableError` from `src/unnamed/part_016` lines 162-210: errors are
classified by lower-cased substring matching, non-retryable patterns first,
and unknown errors default to retryable.  Errors are modelled by their
`Error()` string; the `err == nil` case does not arise because absence of an
error is `Except.ok`. -/
def IsRetryableError (err : String) : Bool :=
  let errStr := toLowerStr err
  if nonRetryablePatterns.any (fun p => containsStr errStr p) then false
  else if retryablePatterns.any (fun p => containsStr errStr p) then true
  else true

/-- `IsQuotaExceededError` from `src/unnamed/part_016` lines 213-220. -/
def IsQuotaExceededError (err : String) : Bool :=
  containsStr (toLowerStr err) "quota"

/-- `time.Second` in nanoseconds (`time.Duration` is a nanosecond count). -/
def nsPerSecond : Nat := 1000000000

/-- Digit-run to number, for the regex capture `(\d+\.?\d*)`. -/
def digitsToNat (ds : List Char) : Nat :=
  ds.foldl (fun acc c => acc * 10 + (c.toNat - 48)) 0

/-- Matching `(\d+\.?\d*)s` at the current position and converting the
captured seconds to nanoseconds.  Because `s` is not a digit, the greedy
backtracking regex matches exactly when the character right after the
maximal digit run (optionally extended by a dot and a second maximal digit
run) is `s`.  `strconv.ParseFloat` plus the `Duration(seconds *
float64(time.Second))` conversion is computed exactly (truncation = `Nat`
floor division); `float64` rounding is exact for every duration string
exercised in this development. -/
def matchNumThenS (cs : List Char) : Option Nat :=
  let d1 := cs.takeWhile Char.isDigit
  let rest1 := cs.dropWhile Char.isDigit
  if d1.isEmpty then none
  else
    match rest1 with
    | 's' :: _ => some (digitsToNat d1 * nsPerSecond)
    | '.' :: rest2 =>
      let d2 := rest2.takeWhile Char.isDigit
      let rest3 := rest2.dropWhile Char.isDigit
      match rest3 with
      | 's' :: _ => some (digitsToNat d1 * nsPerSecond +
          digitsToNat d2 * nsPerSecond / 10 ^ d2.length)
      | _ => none
    | _ => none

/-- Leftmost-match scan for the pattern `[Rr]etry in (\d+\.?\d*)s`, the
regular expression of `ParseRateLimitDelay`. -/
def scanRetryIn : List Char → Option Nat
  | [] => none
  | c :: rest =>
    if (c = 'R' ∨ c = 'r') ∧ "etry in ".toList.isPrefixOf rest then
      match matchNumThenS (rest.drop 8) with
      | some v => some v
      | none => scanRetryIn rest
    else scanRetryIn rest

/-- `ParseRateLimitDelay` from `src/unnamed/part_016` lines 136-159, in
nanoseconds: 0 unless the error text mentions `429`, `rate` or `quota`; the
parsed suggested delay if the retry pattern matches; 30 seconds otherwise. -/
def ParseRateLimitDelay (err : String) : Nat :=
  if containsStr err "429" = false ∧ containsStr err "rate" = false ∧
      containsStr err "quota" = false then 0
  else
    match scanRetryIn err.toList with
    | some v => v
    | none => 30 * nsPerSecond

/-- `types.CompletionRequest` from `src/unnamed/part_017`, restricted to the
fields the verified code paths read or write: the target model, the message
list and the two defaultable sampling parameters. -/
structure CompletionRequest where
  model : String
  messages : List Message
  maxTokens : Nat
  temperature : Rat
deriving DecidableEq, Repr

/-- `types.Usage` from `src/unnamed/part_017`. -/
structure Usage where
  promptTokens : Nat
  completionTokens : Nat
  totalTokens : Nat
deriving DecidableEq, Repr

/-- `types.CompletionResponse` from `src/unnamed/part_017` (metadata and
creation time omitted as inert). -/
structure CompletionResponse where
  id : String
  model : String
  provider : String
  message : Option Message
  finishReason : String
  usage : Option Usage
deriving DecidableEq, Repr

/-- `RetryConfig` from `src/unnamed/part_016` lines 17-22.  `maxAttempts`
and `maxDelay` stay signed because the code tests them with `<= 0`;
`baseDelay` is used only as a duration value. -/
structure RetryConfig where
  maxAttempts : Int
  baseDelay : Nat
  maxDelay : Int
  fallbackModels : List String
deriving DecidableEq, Repr

/-- Observable actions of `WithRetry`: an invocation of the wrapped call
with the request as passed, or a backoff sleep (the `select` on
`time.After`) with its duration in nanoseconds. -/
inductive RetryEvent
  | call (req : CompletionRequest)
  | sleep (ns : Nat)
deriving DecidableEq, Repr

/-- The mutable state of one `WithRetry` execution: the caller's request
(mutated in place through the pointer), the current backoff delay, the
fallback cursor, and the trace of observable actions. -/
structure RetryState where
  req : CompletionRequest
  delay : Nat
  fallbackIndex : Nat
  trace : List RetryEvent
deriving DecidableEq, Repr

/-- The `maxDelay` normalisation inside the backoff update
(`src/unnamed/part_016` lines 119-122). -/
def effectiveMaxDelay (cfg : RetryConfig) : Nat :=
  if cfg.maxDelay ≤ 0 then 30 * nsPerSecond else cfg.maxDelay.toNat

/-- The `maxAttempts` normalisation at the top of `WithRetry`
(`src/unnamed/part_016` lines 49-52). -/
def effMaxAttempts (cfg : RetryConfig) : Nat :=
  if cfg.maxAttempts ≤ 0 then 5 else cfg.maxAttempts.toNat

/-- The final wrapped error of `WithRetry` (`src/unnamed/part_016` line 131). -/
def failedMsg (maxAttempts : Nat) (lastErr : String) : String :=
  "operation failed after " ++ toString maxAttempts ++ " attempts: " ++ lastErr

/-- The attempt loop of `WithRetry` from `src/unnamed/part_016` lines 54-131.
`remaining` counts the attempts still allowed (`maxAttempts - attempt + 1`),
`callIdx` numbers the invocations of the wrapped call so that a stateful
oracle can be modelled as a function of the invocation index.  The context
is never cancelled, so the `select` always completes the sleep. -/
def withRetryGo (fn : Nat → CompletionRequest → Except String CompletionResponse)
    (cfg : RetryConfig) (maxAttempts : Nat) :
    Nat → Nat → RetryState → String → RetryState × Except String CompletionResponse
  | 0, _, st, lastErr => (st, Except.error (failedMsg maxAttempts lastErr))
  | remaining + 1, callIdx, st, _ =>
    let st1 : RetryState := { st with trace := st.trace ++ [RetryEvent.call st.req] }
    match fn callIdx st.req with
    | Except.ok resp => (st1, Except.ok resp)
    | Except.error err =>
      if IsRetryableError err = false then
        (st1, Except.error err)
      else if IsQuotaExceededError err = true ∧
          ¬(0 < cfg.fallbackModels.length ∧
            st1.fallbackIndex < cfg.fallbackModels.length) then
        (st1, Except.error err)
      else
        let st2 : RetryState :=
          if IsQuotaExceededError err = true then
            { st1 with
                req := { st1.req with
                  model := cfg.fallbackModels.getD st1.fallbackIndex "" },
                fallbackIndex := st1.fallbackIndex + 1 }
          else st1
        if remaining = 0 then
          (st2, Except.error (failedMsg maxAttempts err))
        else
          let suggested := ParseRateLimitDelay err
          let delay1 := if 0 < suggested then suggested + nsPerSecond else st2.delay
          let st3 : RetryState :=
            { st2 with
                delay := delay1
                trace := st2.trace ++ [RetryEvent.sleep delay1] }
          let st4 : RetryState :=
            if suggested = 0 then
              { st3 with delay := min (delay1 * 2) (effectiveMaxDelay cfg) }
            else st3
          withRetryGo fn cfg maxAttempts remaining (callIdx + 1) st4 err

/-- `WithRetry` from `src/unnamed/part_016` lines 41-132 (with an explicit
config, matching every call site of the claims).  Returns the final retry
state — final request, trace of calls and sleeps — next to the Go return
value. -/
def withRetry (fn : Nat → CompletionRequest → Except String CompletionResponse)
    (req : CompletionRequest) (cfg : RetryConfig) :
    RetryState × Except String CompletionResponse :=
  withRetryGo fn cfg (effMaxAttempts cfg) (effMaxAttempts cfg) 0
    { req := req, delay := cfg.baseDelay, fallbackIndex := 0, trace := [] } ""

/-- The models of the wrapped-call invocations, in order. -/
def callModels (tr : List RetryEvent) : List String :=
  tr.filterMap (fun e => match e with
    | RetryEvent.call r => some r.model
    | RetryEvent.sleep _ => none)

/-- Number of invocations of the wrapped call recorded in a trace. -/
def callCount (tr : List RetryEvent) : Nat :=
  (callModels tr).length

/-- The duration slept after a transient failure: the parsed
provider-suggested delay plus the one-second buffer if present, the current
backoff delay otherwise (`src/unnamed/part_016` lines 93-115). -/
def sleepDelay (st : RetryState) (err : String) : Nat :=
  if 0 < ParseRateLimitDelay err then ParseRateLimitDelay err + nsPerSecond
  else st.delay

/-- The backoff delay carried into the next attempt: doubled and capped when
no suggested delay was parsed (`src/unnamed/part_016` lines 117-127). -/
def nextDelay (cfg : RetryConfig) (st : RetryState) (err : String) : Nat :=
  if 0 < ParseRateLimitDelay err then ParseRateLimitDelay err + nsPerSecond
  else min (st.delay * 2) (effectiveMaxDelay cfg)

/-- The frame property of `WithRetry` on the caller's request: every field
except `Model` is untouched, and `Model` is the original model until a
quota fallback swap occurs, after which it is the most recently swapped-in
entry of `FallbackModels`. -/
def reqFrameOk (req0 : CompletionRequest) (cfg : RetryConfig) (st : RetryState) : Prop :=
  st.req.messages = req0.messages ∧ st.req.maxTokens = req0.maxTokens ∧
  st.req.temperature = req0.temperature ∧
  (st.fallbackIndex = 0 → st.req.model = req0.model) ∧
  (0 < st.fallbackIndex →
    st.req.model = cfg.fallbackModels.getD (st.fallbackIndex - 1) "")

/-- A successful response used by the concrete retry executions. -/
def respDone : CompletionResponse :=
  { id := "r1", model := "m1", provider := "p",
    message := some { role := Role.assistant, textData := "done" },
    finishReason := "stop", usage := none }

/-- Oracle failing with a transient timeout on the first two invocations and
succeeding on the third. -/
def fnTimeoutTwice : Nat → CompletionRequest → Except String CompletionResponse :=
  fun i _ => if i < 2 then Except.error "connection timeout" else Except.ok respDone

/-- Oracle failing every invocation with a quota error. -/
def fnQuotaAlways : Nat → CompletionRequest → Except String CompletionResponse :=
  fun _ _ => Except.error "quota exceeded"

/-- Oracle failing the first invocation with an authentication error. -/
def fnAuthFail : Nat → CompletionRequest → Except String CompletionResponse :=
  fun _ _ => Except.error "authentication failed"

/-- The default retry configuration (`DefaultRetryConfig`), without
fallback models. -/
def cfgDefault : RetryConfig :=
  { maxAttempts := 5, baseDelay := 2 * nsPerSecond, maxDelay := 30 * nsPerSecond,
    fallbackModels := [] }

/-- Two attempts and one fallback model, exercising the quota fallback path. -/
def cfgOneFallback : RetryConfig :=
  { maxAttempts := 2, baseDelay := 2 * nsPerSecond, maxDelay := 30 * nsPerSecond,
    fallbackModels := ["fallback-a"] }

/-- Five attempts and two fallback models `[A, B]`. -/
def cfgTwoFallbacks : RetryConfig :=
  { maxAttempts := 5, baseDelay := 2 * nsPerSecond, maxDelay := 30 * nsPerSecond,
    fallbackModels := ["fallback-a", "fallback-b"] }

/-- A single attempt with one fallback model: a quota failure on the final
attempt swaps the model in without ever trying it. -/
def cfgOneAttempt : RetryConfig :=
  { maxAttempts := 1, baseDelay := 2 * nsPerSecond, maxDelay := 30 * nsPerSecond,
    fallbackModels := ["fallback-a"] }

/-- The original request used by the concrete retry executions. -/
def reqOrig : CompletionRequest :=
  { model := "orig-model", messages := [], maxTokens := 100, temperature := 1 }

/-! ### Client request defaults (`src/client.go`) -/

/-- `ClientConfig` from `src/client.go` lines 42-49, restricted to the
defaulting fields `applyDefaults` reads. -/
structure ClientConfig where
  defaultModel : String
  defaultMaxTokens : Nat
  defaultTemperature : Rat
deriving DecidableEq, Repr

/-- `Client.applyDefaults` from `src/client.go` lines 256-273: an empty
model is replaced by the default (failing `InvalidRequest` when none is
configured), then `MaxTokens == 0` and `Temperature == 0` are overwritten
by the client-wide defaults.  The method mutates the request through the
pointer; the post-request is returned next to the Go error value. -/
def applyDefaults (cfg : ClientConfig) (req : CompletionRequest) :
    CompletionRequest × Except String Unit :=
  if req.model = "" ∧ cfg.defaultModel = "" then
    (req, Except.error "model is required")
  else
    let req1 := if req.model = "" then { req with model := cfg.defaultModel } else req
    let req2 := if req1.maxTokens = 0 then
        { req1 with maxTokens := cfg.defaultMaxTokens } else req1
    let req3 := if req2.temperature = 0 then
        { req2 with temperature := cfg.defaultTemperature } else req2
    (req3, Except.ok ())

/-- The request middleware chain of `Client.Complete` (`src/client.go`
lines 172-178): transformers applied in registration order, a failure
aborting the call. -/
def applyReqMiddleware : List (CompletionRequest → Except String CompletionRequest) →
    CompletionRequest → Except String CompletionRequest
  | [], r => Except.ok r
  | f :: fs, r =>
    match f r with
    | Except.error e => Except.error e
    | Except.ok r1 => applyReqMiddleware fs r1

/-- `Client.Complete` from `src/client.go` lines 159-195: apply defaults,
resolve the provider for the (defaulted) model, run the request middleware,
dispatch to the provider.  The registry lookup and the adapter are
parameters; the success value also exposes the request actually dispatched
(response middleware, inert for the verified claims, is omitted). -/
def clientComplete (cfg : ClientConfig)
    (getProv : String → Option (CompletionRequest → Except String CompletionResponse))
    (mws : List (CompletionRequest → Except String CompletionRequest))
    (req : CompletionRequest) :
    Except String (CompletionRequest × CompletionResponse) :=
  match applyDefaults cfg req with
  | (_, Except.error e) => Except.error e
  | (reqD, Except.ok _) =>
    match getProv reqD.model with
    | none => Except.error "no provider found for model"
    | some prov =>
      match applyReqMiddleware mws reqD with
      | Except.error e => Except.error e
      | Except.ok processed =>
        match prov processed with
        | Except.error e => Except.error e
        | Except.ok resp => Except.ok (processed, resp)

/-- A client config with a non-zero default temperature. -/
def cfgClient : ClientConfig :=
  { defaultModel := "default-model", defaultMaxTokens := 4096,
    defaultTemperature := 7 / 10 }

/-- A request with temperature (and max tokens) left at zero. -/
def reqZeroTemp : CompletionRequest :=
  { model := "m1", messages := [], maxTokens := 0, temperature := 0 }

/-- The request `reqZeroTemp` after `applyDefaults` under `cfgClient`. -/
def reqDispatched : CompletionRequest :=
  { model := "m1", messages := [], maxTokens := 4096, temperature := 7 / 10 }

/-- A provider answering every request. -/
def provEcho : CompletionRequest → Except String CompletionResponse :=
  fun rq => Except.ok
    { id := "x", model := rq.model, provider := "p1",
      message := some { role := Role.assistant, textData := "ok" },
      finishReason := "stop", usage := none }

/-- A registry resolving every model to `provEcho`. -/
def getProvOne : String → Option (CompletionRequest → Except String CompletionResponse) :=
  fun _ => some provEcho

/-- The response `provEcho` gives to `reqDispatched`. -/
def respEcho : CompletionResponse :=
  { id := "x", model := "m1", provider := "p1",
    message := some { role := Role.assistant, textData := "ok" },
    finishReason := "stop", usage := none }

/-! ### Replicate adapter (`src/providers/replicate/replicate.go`) -/

/-- The `Output` field of a replicate prediction as `convertResponse` reads
it: absent, a slice whose string elements are joined, or a single string. -/
inductive PredOutput
  | null
  | strList (parts : List String)
  | str (s : String)
deriving DecidableEq, Repr

/-- `replicate.Prediction`, restricted to the fields `convertResponse`
reads. -/
structure Prediction where
  id : String
  model : String
  status : String
  output : PredOutput
deriving DecidableEq, Repr

/-- The content extraction of `convertResponse` (lines 274-288). -/
def predictionContent : PredOutput → String
  | PredOutput.null => ""
  | PredOutput.strList parts => String.join parts
  | PredOutput.str s => s

/-- `convertResponse` from `src/providers/replicate/replicate.go` lines
272-312: assistant message holding the joined output, estimated usage
(`len(content)/4` bytes per token), and a finish reason that is `"stop"`
unless the prediction failed or was canceled. -/
def convertResponse (p : Prediction) : CompletionResponse :=
  let content := predictionContent p.output
  { id := p.id, model := p.model, provider := "replicate",
    message := some { role := Role.assistant, textData := content },
    finishReason := if p.status = "failed" then "error"
      else if p.status = "canceled" then "cancelled" else "stop",
    usage := some { promptTokens := 0, completionTokens := content.utf8ByteSize / 4,
                    totalTokens := content.utf8ByteSize / 4 } }

/-- `Provider.Complete` from `src/providers/replicate/replicate.go` lines
115-149: the wire steps (`convertRequest`, `CreatePrediction`, `Wait`) are
the abstract `backend` yielding the terminal prediction for the request;
its result is converted by `convertResponse`. -/
def replicateComplete (backend : CompletionRequest → Except String Prediction)
    (req : CompletionRequest) : Except String CompletionResponse :=
  match backend req with
  | Except.error e => Except.error e
  | Except.ok p => Except.ok (convertResponse p)

/-- `types.StreamResponse` from `src/unnamed/part_017`. -/
structure StreamResponse where
  id : String
  model : String
  provider : String
  delta : Option Message
  finishReason : String
  usage : Option Usage
deriving DecidableEq, Repr

/-- `Provider.Stream` from `src/providers/replicate/replicate.go` lines
152-175: simulated streaming — run `Complete`, then invoke the callback
exactly once with the full message as the delta and the finish reason (and
usage) already set on that same chunk.  The collecting callback (never
failing) is inlined: the returned list is the sequence of callback
invocations. -/
def replicateStream (backend : CompletionRequest → Except String Prediction)
    (req : CompletionRequest) : Except String (List StreamResponse) :=
  match replicateComplete backend req with
  | Except.error e => Except.error e
  | Except.ok resp =>
    Except.ok [{ id := resp.id, model := resp.model, provider := "replicate",
                 delta := resp.message, finishReason := resp.finishReason,
                 usage := resp.usage }]

/-- Delta text of a chunk (empty when the delta message is absent). -/
def deltaText (ch : StreamResponse) : String :=
  match ch.delta with
  | some m => m.textData
  | none => ""

/-- Concatenation of the delta texts of the non-final chunks (empty finish
reason), in delivery order — the quantity the claim compares with the
Complete text. -/
def concatNonFinalDeltas (chunks : List StreamResponse) : String :=
  String.join (chunks.filterMap (fun ch =>
    if ch.finishReason = "" then some (deltaText ch) else none))

/-- Concatenation of the delta texts of all chunks, in delivery order. -/
def concatAllDeltas (chunks : List StreamResponse) : String :=
  String.join (chunks.map deltaText)

/-- A deterministic fake backend producing `"hello"` in two output parts. -/
def backendHello : CompletionRequest → Except String Prediction :=
  fun _ => Except.ok
    { id := "pred-1", model := "meta/meta-llama-3-8b-instruct",
      status := "succeeded", output := PredOutput.strList ["hel", "lo"] }

/-- The response `replicateComplete backendHello` produces. -/
def respHello : CompletionResponse :=
  { id := "pred-1", model := "meta/meta-llama-3-8b-instruct", provider := "replicate",
    message := some { role := Role.assistant, textData := "hello" },
    finishReason := "stop",
    usage := some { promptTokens := 0, completionTokens := 1, totalTokens := 1 } }

/-- The chunk list `replicateStream backendHello` delivers. -/
def chunksHello : List StreamResponse :=
  [{ id := "pred-1", model := "meta/meta-llama-3-8b-instruct", provider := "replicate",
     delta := some { role := Role.assistant, textData := "hello" },
     finishReason := "stop",
     usage := some { promptTokens := 0, completionTokens := 1, totalTokens := 1 } }]

end AiUtil

/-! ## Theorems -/

namespace PkgAiutil

theorem Append_eq_of_error (est : ChatMessage → Except String Nat)
    (c : Conversation) (m : ChatMessage) :
    (Append est c m).2 ≠ Except.ok () → (Append est c m).1 = c := by
  intro h
  unfold Append at *
  cases hest : est m with
  | error e => simp [hest]
  | ok t =>
    simp [hest] at h ⊢
    by_cases hle : c.maxTokens < c.tokenCount + t
    · simp [hle]
    · simp [hle] at h

/-- Claim C1: `Append` is all-or-nothing under the token budget.  If the
estimate fails or the attempted total exceeds `MaxTokens`, the returned
error leaves the conversation byte-for-byte unchanged (in particular the
over-budget case returns the `"Max tokens exceeded"` error with the state
untouched); on success the message and the increased running total are
committed together, and the committed total is within the budget. -/
theorem append_all_or_nothing (est : ChatMessage → Except String Nat)
    (c : Conversation) (m : ChatMessage) :
    ((Append est c m).2 ≠ Except.ok () → (Append est c m).1 = c) ∧
    (∀ t, est m = Except.ok t → c.maxTokens < c.tokenCount + t →
      (Append est c m).2 = Except.error "Max tokens exceeded" ∧ (Append est c m).1 = c) ∧
    ((Append est c m).2 = Except.ok () →
      ∃ t, est m = Except.ok t ∧ c.tokenCount + t ≤ c.maxTokens ∧
        (Append est c m).1.messages = c.messages ++ [m] ∧
        (Append est c m).1.tokenCount = c.tokenCount + t ∧
        (Append est c m).1.maxTokens = c.maxTokens) := by
  refine ⟨Append_eq_of_error est c m, ?_, ?_⟩
  · intro t ht hover
    unfold Append
    simp [ht, hover]
  · intro h
    unfold Append at h ⊢
    cases hest : est m with
    | error e => simp [hest] at h
    | ok t =>
      simp [hest] at h ⊢
      by_cases hle : c.maxTokens < c.tokenCount + t
      · simp [hle] at h
      · simp [hle]
        omega

/-- Witness for claim C1: a concrete in-budget append commits the message,
and a concrete over-budget append returns the error with the state
unchanged. -/
theorem append_all_or_nothing_witness :
    (Append estBytes convShort msgHi).1.messages = [msgHi] ∧
    (Append estBytes convShort msgHi).1.tokenCount = 2 ∧
    (Append estBytes convShort msgLong).2 = Except.error "Max tokens exceeded" ∧
    (Append estBytes convShort msgLong).1 = convShort := by
  obtain ⟨t, ht, hle, hmsg, htok, hmax⟩ :=
    (append_all_or_nothing estBytes convShort msgHi).2.2 rfl
  have hcomp : estBytes msgHi = (Except.ok 2 : Except String Nat) := rfl
  rw [hcomp] at ht
  injection ht with ht3
  subst ht3
  have hfail := (append_all_or_nothing estBytes convShort msgLong).2.1 8 rfl (by decide)
  refine ⟨?_, ?_, hfail.1, hfail.2⟩
  · rw [hmsg]; rfl
  · rw [htok]; decide

/-- Claim C8: the seeding helper is not all-or-nothing.  Concrete failing
run: budget 8, three tokens used by the system prompt; the user half of the
pair fits (running total 5) but the paired assistant append exceeds the
budget and its error is silently discarded, leaving a dangling user-only
half-turn. -/
theorem seedConversation_dangling_user :
    SeedConversation estBytes convSeed [("hi", "responsee")] =
      { messages := [{ role := "system", content := "sys" },
                     { role := "user", content := "hi" }],
        tokenCount := 5, maxTokens := 8 } ∧
    (SeedConversation estBytes convSeed [("hi", "responsee")]).messages.map
        ChatMessage.role = ["system", "user"] := by
  constructor <;> decide

end PkgAiutil

namespace AiUtil

theorem removeOldestNonSystem_length {ps : Bool} :
    ∀ {msgs msgs1 : List Message}, removeOldestNonSystem ps msgs = some msgs1 →
      msgs1.length + 1 = msgs.length := by
  intro msgs
  induction msgs with
  | nil => intro msgs1 h; simp [removeOldestNonSystem] at h
  | cons m rest ih =>
    intro msgs1 h
    rw [removeOldestNonSystem] at h
    by_cases hc : ps = false ∨ m.role ≠ Role.system
    · simp [hc] at h
      simp [← h]
    · simp [hc] at h
      obtain ⟨r, hr, heq⟩ := h
      have := ih hr
      simp [← heq, ← this]

theorem removeIter_length {ps : Bool} :
    ∀ {k : Nat} {msgs msgsK : List Message}, removeIter ps k msgs = some msgsK →
      msgsK.length + k = msgs.length := by
  intro k
  induction k with
  | zero =>
    intro msgs msgsK h
    simp [removeIter] at h
    simp [h]
  | succ n ih =>
    intro msgs msgsK h
    rw [removeIter] at h
    cases hr : removeOldestNonSystem ps msgs with
    | none => rw [hr] at h; simp at h
    | some msgs1 =>
      rw [hr] at h
      have h1 := removeOldestNonSystem_length hr
      have h2 := ih h
      omega

/-- Claim C6 (amended): if removing the `k` oldest non-preserved messages
(and no fewer) brings the estimate within budget, and doing so leaves at
least two messages when `preserveSystem` is set (at least one otherwise),
then `TruncateToFit` succeeds, removes exactly those `k` messages oldest
first, and records the final estimate.  (The extra length proviso is what
the counterexample forces: the source returns `TokenLimitExceeded` whenever
a removal leaves only the preserved system message, even if it now fits.) -/
theorem truncateToFit_exact_evictions (est : List Message → Nat) (maxT : Nat) (ps : Bool) :
    ∀ (k : Nat) (msgs msgsK : List Message),
      removeIter ps k msgs = some msgsK →
      est msgsK ≤ maxT →
      (∀ j msgsJ, j < k → removeIter ps j msgs = some msgsJ → maxT < est msgsJ) →
      (k = 0 ∨ (1 ≤ msgsK.length ∧ (ps = true → 2 ≤ msgsK.length))) →
      truncateToFit est maxT ps msgs = (msgsK, TruncResult.ok (est msgsK)) := by
  intro k
  induction k with
  | zero =>
    intro msgs msgsK hk hfit hover hguard
    simp [removeIter] at hk
    subst hk
    rw [truncateToFit]
    simp [hfit]
  | succ n ih =>
    intro msgs msgsK hk hfit hover hguard
    have hover0 : maxT < est msgs := hover 0 msgs (Nat.succ_pos n) (by simp [removeIter])
    rw [removeIter] at hk
    cases hr : removeOldestNonSystem ps msgs with
    | none => rw [hr] at hk; simp at hk
    | some msgs1 =>
      rw [hr] at hk
      have hlenK : msgsK.length + n = msgs1.length := removeIter_length hk
      have hguard1 : 1 ≤ msgsK.length ∧ (ps = true → 2 ≤ msgsK.length) := by
        rcases hguard with h0 | hg
        · exact absurd h0 (Nat.succ_ne_zero n)
        · exact hg
      have hg : ¬ (msgs1.length = 0 ∨ (ps = true ∧ msgs1.length = 1)) := by
        rintro (hz | ⟨hpst, h1⟩)
        · omega
        · have := hguard1.2 hpst
          omega
      rw [truncateToFit]
      rw [if_neg (by omega)]
      split
      · next heq => rw [heq] at hr; cases hr
      · next msgs1' heq =>
        rw [heq] at hr
        injection hr with hr1
        subst hr1
        rw [if_neg hg]
        refine ih msgs1' msgsK hk hfit ?_ (Or.inr hguard1)
        intro j msgsJ hj hrem
        refine hover (j + 1) msgsJ (Nat.succ_lt_succ hj) ?_
        rw [removeIter, heq]
        exact hrem

/-- Witness for claim C6 (amended): removing exactly one message (the oldest
non-system one) brings `[system(1), user(3), user(1)]` within the 2-token
budget, two messages remain, and `TruncateToFit` returns them with the
recomputed estimate. -/
theorem truncateToFit_exact_evictions_witness :
    truncateToFit charEst 2 true [msgSys, msgUserBig, msgUserSmall] =
      ([msgSys, msgUserSmall], TruncResult.ok (charEst [msgSys, msgUserSmall])) := by
  refine truncateToFit_exact_evictions charEst 2 true 1
    [msgSys, msgUserBig, msgUserSmall] [msgSys, msgUserSmall] (by decide) (by decide) ?_
    (Or.inr (by decide))
  intro j msgsJ hj hrem
  have hj0 : j = 0 := by omega
  subst hj0
  simp [removeIter] at hrem
  subst hrem
  decide

/-- Counterexample to claim C6 as stated: `[system(1), user(3)]` with budget
2 exceeds the budget by exactly `k = 1` evictable message — removing the
user message leaves an estimate of 1 ≤ 2 — yet `TruncateToFit` returns
`TokenLimitExceeded` (with the eviction already committed) instead of
succeeding, because the post-removal guard fires on `len == 1 &&
preserveSystem` before re-estimating. -/
theorem truncateToFit_guard_counterexample :
    removeIter true 1 convGuard.messages = some [msgSys] ∧
    charEst [msgSys] ≤ convGuard.maxTokens ∧
    convGuard.maxTokens < charEst convGuard.messages ∧
    truncateToFit charEst convGuard.maxTokens true convGuard.messages =
      ([msgSys], TruncResult.tokenLimitExceeded) := by
  refine ⟨by decide, by decide, by decide, ?_⟩
  rw [truncateToFit]
  decide

theorem truncateToFit_ok_tokens (est : List Message → Nat) (maxT : Nat) (ps : Bool) :
    ∀ (n : Nat) (msgs : List Message), msgs.length ≤ n →
      ∀ msgs1 t, truncateToFit est maxT ps msgs = (msgs1, TruncResult.ok t) →
        t = est msgs1 := by
  intro n
  induction n with
  | zero =>
    intro msgs hlen msgs1 t h
    have hnil : msgs = [] := List.length_eq_zero.mp (Nat.le_zero.mp hlen)
    subst hnil
    rw [truncateToFit] at h
    by_cases hfit : est [] ≤ maxT
    · simp [hfit] at h
      obtain ⟨h1, h2⟩ := h
      simp [← h1, ← h2]
    · simp [hfit, removeOldestNonSystem] at h
  | succ n ih =>
    intro msgs hlen msgs1 t h
    rw [truncateToFit] at h
    by_cases hfit : est msgs ≤ maxT
    · simp [hfit] at h
      obtain ⟨h1, h2⟩ := h
      simp [← h1, ← h2]
    · simp only [if_neg hfit] at h
      split at h
      · next heq => simp at h
      · next msgsR heq =>
        by_cases hg : msgsR.length = 0 ∨ (ps = true ∧ msgsR.length = 1)
        · rw [if_pos hg] at h
          simp at h
        · rw [if_neg hg] at h
          have hlenR := removeOldestNonSystem_length heq
          exact ih msgsR (by omega) msgs1 t h

theorem charEst_eq_sumEst : ∀ msgs, charEst msgs = sumEst charEst msgs := by
  intro msgs
  induction msgs with
  | nil => rfl
  | cons m rest ih =>
    simp [charEst, sumEst, List.map_cons, List.sum_cons] at ih ⊢
    omega

/-- Claim C7 (amended): `AddMessage` preserves the count/messages agreement
when a client is attached and its estimation call succeeds (with an
additive estimator, as all registered providers' are), a successful
`TruncateToFit` re-establishes it, and the legacy `Append` preserves its
`TokenCount` invariant; but on `AddMessage`'s other branches — estimation
failure, or no attached client — the message is appended with the count
left untouched, and a failing `TruncateToFit` removes messages without
updating the count: both leave count and messages in disagreement (see the
counterexample for concrete instances of both breaking paths). -/
theorem tokenInvariant_amended (est : List Message → Nat)
    (estF : List Message → Except String Nat) (c : Conversation)
    (m : Message) (ps : Bool)
    (hadd : ∀ msgs, est msgs = sumEst est msgs) :
    (estF [m] = Except.ok (est [m]) → tokenInvariant est c →
      tokenInvariant est (addMessage (some estF) c m)) ∧
    (∀ c1 t, truncateToFitConv est ps c = (c1, TruncResult.ok t) → tokenInvariant est c1) ∧
    (∀ e, estF [m] = Except.error e →
      addMessage (some estF) c m = { c with messages := c.messages ++ [m] }) ∧
    (addMessage none c m = { c with messages := c.messages ++ [m] }) ∧
    (∀ (estP : PkgAiutil.ChatMessage → Nat) (cp : PkgAiutil.Conversation)
        (mp : PkgAiutil.ChatMessage),
      cp.tokenCount = (cp.messages.map estP).sum →
      ((PkgAiutil.Append (fun x => Except.ok (estP x)) cp mp).1).tokenCount =
        (((PkgAiutil.Append (fun x => Except.ok (estP x)) cp mp).1).messages.map estP).sum) := by
  refine ⟨?_, ?_, ?_, ?_, ?_⟩
  · intro hest hinv
    simp [tokenInvariant, addMessage, hest, sumEst, List.map_append] at hinv ⊢
    omega
  · intro c1 t h
    unfold truncateToFitConv at h
    split at h
    · next msgs1 tokens heq =>
      have ht := truncateToFit_ok_tokens est c.maxTokens ps c.messages.length
        c.messages (Nat.le_refl _) msgs1 tokens heq
      rw [Prod.mk.injEq] at h
      obtain ⟨h1, h2⟩ := h
      subst h1
      show tokens = sumEst est msgs1
      rw [ht]
      exact hadd msgs1
    · next msgs1 r hne heq =>
      rw [Prod.mk.injEq] at h
      exact (hne t h.2).elim
  · intro e hest
    simp [addMessage, hest]
  · rfl
  · intro estP cp mp hinv
    by_cases hle : cp.maxTokens < cp.tokenCount + estP mp
    · simp [PkgAiutil.Append, hle]
      exact hinv
    · simp [PkgAiutil.Append, hle, List.map_append]
      omega

/-- Witness for claim C7 (amended): concrete invariant-preserving
`AddMessage` step (client attached, estimation succeeding) and a concrete
successful truncation re-establishing the invariant. -/
theorem tokenInvariant_amended_witness :
    tokenInvariant charEst
      (addMessage (some (fun msgs => Except.ok (charEst msgs)))
        { messages := [msgSys], maxTokens := 50, estimatedTokens := 1 } msgUserSmall) ∧
    tokenInvariant charEst
      (truncateToFitConv charEst true
        { messages := [msgSys], maxTokens := 50, estimatedTokens := 1 }).1 := by
  constructor
  · exact (tokenInvariant_amended charEst (fun msgs => Except.ok (charEst msgs))
      { messages := [msgSys], maxTokens := 50, estimatedTokens := 1 }
      msgUserSmall true charEst_eq_sumEst).1 rfl (by decide)
  · have heq : truncateToFitConv charEst true
        { messages := [msgSys], maxTokens := 50, estimatedTokens := 1 } =
        ({ messages := [msgSys], maxTokens := 50, estimatedTokens := 1 }, TruncResult.ok 1) := by
      unfold truncateToFitConv
      have ht : truncateToFit charEst 50 true [msgSys] = ([msgSys], TruncResult.ok 1) := by
        rw [truncateToFit]
        decide
      rw [show ({ messages := [msgSys], maxTokens := 50, estimatedTokens := 1 } :
            Conversation).maxTokens = 50 from rfl,
          show ({ messages := [msgSys], maxTokens := 50, estimatedTokens := 1 } :
            Conversation).messages = [msgSys] from rfl, ht]
    rw [heq]
    exact (tokenInvariant_amended charEst (fun msgs => Except.ok (charEst msgs))
      { messages := [msgSys], maxTokens := 50, estimatedTokens := 1 }
      msgUserSmall true charEst_eq_sumEst).2.1 _ 1 heq

theorem callModels_append (tr1 tr2 : List RetryEvent) :
    callModels (tr1 ++ tr2) = callModels tr1 ++ callModels tr2 := by
  simp [callModels, List.filterMap_append]

theorem effMaxAttempts_pos (cfg : RetryConfig) : 1 ≤ effMaxAttempts cfg := by
  unfold effMaxAttempts
  split
  · omega
  · next hpos => omega

theorem withRetryGo_success (fn : Nat → CompletionRequest → Except String CompletionResponse)
    (cfg : RetryConfig) (M n callIdx : Nat) (st : RetryState) (lastE : String)
    (resp : CompletionResponse)
    (hf : fn callIdx st.req = Except.ok resp) :
    withRetryGo fn cfg M (n + 1) callIdx st lastE =
      ({ st with trace := st.trace ++ [RetryEvent.call st.req] }, Except.ok resp) := by
  simp only [withRetryGo, hf]

theorem withRetryGo_nonretryable (fn : Nat → CompletionRequest → Except String CompletionResponse)
    (cfg : RetryConfig) (M n callIdx : Nat) (st : RetryState) (lastE err : String)
    (hf : fn callIdx st.req = Except.error err)
    (hretry : IsRetryableError err = false) :
    withRetryGo fn cfg M (n + 1) callIdx st lastE =
      ({ st with trace := st.trace ++ [RetryEvent.call st.req] }, Except.error err) := by
  simp only [withRetryGo, hf, hretry]
  simp

theorem withRetryGo_quota_exhausted
    (fn : Nat → CompletionRequest → Except String CompletionResponse)
    (cfg : RetryConfig) (M n callIdx : Nat) (st : RetryState) (lastE err : String)
    (hf : fn callIdx st.req = Except.error err)
    (hretry : IsRetryableError err = true)
    (hquota : IsQuotaExceededError err = true)
    (hidx : ¬ (0 < cfg.fallbackModels.length ∧
      st.fallbackIndex < cfg.fallbackModels.length)) :
    withRetryGo fn cfg M (n + 1) callIdx st lastE =
      ({ st with trace := st.trace ++ [RetryEvent.call st.req] }, Except.error err) := by
  simp only [withRetryGo, hf, hretry, hquota]
  simp [hidx]

theorem withRetryGo_step_transient
    (fn : Nat → CompletionRequest → Except String CompletionResponse)
    (cfg : RetryConfig) (M n callIdx : Nat) (st : RetryState) (lastE err : String)
    (hn : n ≠ 0)
    (hf : fn callIdx st.req = Except.error err)
    (hretry : IsRetryableError err = true)
    (hquota : IsQuotaExceededError err = false) :
    withRetryGo fn cfg M (n + 1) callIdx st lastE =
      withRetryGo fn cfg M n (callIdx + 1)
        { req := st.req, delay := nextDelay cfg st err, fallbackIndex := st.fallbackIndex,
          trace := st.trace ++
            [RetryEvent.call st.req, RetryEvent.sleep (sleepDelay st err)] }
        err := by
  simp only [withRetryGo, hf, hretry, hquota]
  by_cases hsug : ParseRateLimitDelay err = 0
  · simp [hn, hsug, sleepDelay, nextDelay]
  · have hpos : 0 < ParseRateLimitDelay err := Nat.pos_of_ne_zero hsug
    simp [hn, hsug, hpos, sleepDelay, nextDelay]

theorem withRetryGo_step_quota
    (fn : Nat → CompletionRequest → Except String CompletionResponse)
    (cfg : RetryConfig) (M n callIdx : Nat) (st : RetryState) (lastE err : String)
    (hn : n ≠ 0)
    (hf : fn callIdx st.req = Except.error err)
    (hretry : IsRetryableError err = true)
    (hquota : IsQuotaExceededError err = true)
    (hidx : st.fallbackIndex < cfg.fallbackModels.length) :
    withRetryGo fn cfg M (n + 1) callIdx st lastE =
      withRetryGo fn cfg M n (callIdx + 1)
        { req := { st.req with model := cfg.fallbackModels.getD st.fallbackIndex "" },
          delay := nextDelay cfg st err, fallbackIndex := st.fallbackIndex + 1,
          trace := st.trace ++
            [RetryEvent.call st.req, RetryEvent.sleep (sleepDelay st err)] }
        err := by
  have h0 : 0 < cfg.fallbackModels.length := Nat.lt_of_le_of_lt (Nat.zero_le _) hidx
  simp only [withRetryGo, hf, hretry, hquota]
  by_cases hsug : ParseRateLimitDelay err = 0
  · simp [hn, hsug, hidx, h0, sleepDelay, nextDelay]
  · have hpos : 0 < ParseRateLimitDelay err := Nat.pos_of_ne_zero hsug
    simp [hn, hsug, hpos, hidx, h0, sleepDelay, nextDelay]

theorem withRetryGo_quota_last
    (fn : Nat → CompletionRequest → Except String CompletionResponse)
    (cfg : RetryConfig) (M callIdx : Nat) (st : RetryState) (lastE err : String)
    (hf : fn callIdx st.req = Except.error err)
    (hretry : IsRetryableError err = true)
    (hquota : IsQuotaExceededError err = true)
    (hidx : st.fallbackIndex < cfg.fallbackModels.length) :
    withRetryGo fn cfg M 1 callIdx st lastE =
      ({ req := { st.req with model := cfg.fallbackModels.getD st.fallbackIndex "" },
         delay := st.delay, fallbackIndex := st.fallbackIndex + 1,
         trace := st.trace ++ [RetryEvent.call st.req] },
        Except.error (failedMsg M err)) := by
  have h0 : 0 < cfg.fallbackModels.length := Nat.lt_of_le_of_lt (Nat.zero_le _) hidx
  rw [show (1 : Nat) = 0 + 1 from rfl]
  simp only [withRetryGo, hf, hretry, hquota]
  simp [hidx, h0]

theorem withRetryGo_trace_extends
    (fn : Nat → CompletionRequest → Except String CompletionResponse)
    (cfg : RetryConfig) (M : Nat) :
    ∀ (rem callIdx : Nat) (st : RetryState) (lastE : String),
      ∃ suf, (withRetryGo fn cfg M rem callIdx st lastE).1.trace = st.trace ++ suf := by
  intro rem
  induction rem with
  | zero =>
    intro callIdx st lastE
    exact ⟨[], by simp [withRetryGo]⟩
  | succ n ih =>
    intro callIdx st lastE
    cases hfn : fn callIdx st.req with
    | ok resp =>
      rw [withRetryGo_success fn cfg M n callIdx st lastE resp hfn]
      exact ⟨[RetryEvent.call st.req], rfl⟩
    | error err =>
      by_cases hretry : IsRetryableError err = false
      · rw [withRetryGo_nonretryable fn cfg M n callIdx st lastE err hfn hretry]
        exact ⟨[RetryEvent.call st.req], rfl⟩
      · have hretry' : IsRetryableError err = true := by
          cases hcase : IsRetryableError err
          · exact absurd hcase hretry
          · rfl
        by_cases hquota : IsQuotaExceededError err = true
        · by_cases hidx : st.fallbackIndex < cfg.fallbackModels.length
          · cases n with
            | zero =>
              rw [withRetryGo_quota_last fn cfg M callIdx st lastE err hfn hretry' hquota hidx]
              exact ⟨[RetryEvent.call st.req], rfl⟩
            | succ n1 =>
              rw [withRetryGo_step_quota fn cfg M (n1 + 1) callIdx st lastE err
                (Nat.succ_ne_zero n1) hfn hretry' hquota hidx]
              obtain ⟨suf, hsuf⟩ := ih (callIdx + 1)
                { req := { st.req with
                    model := cfg.fallbackModels.getD st.fallbackIndex "" },
                  delay := nextDelay cfg st err, fallbackIndex := st.fallbackIndex + 1,
                  trace := st.trace ++
                    [RetryEvent.call st.req, RetryEvent.sleep (sleepDelay st err)] } err
              refine ⟨[RetryEvent.call st.req, RetryEvent.sleep (sleepDelay st err)] ++ suf, ?_⟩
              rw [hsuf]
              simp
          · have hidx' : ¬ (0 < cfg.fallbackModels.length ∧
                st.fallbackIndex < cfg.fallbackModels.length) := by
              intro hcon
              exact hidx hcon.2
            rw [withRetryGo_quota_exhausted fn cfg M n callIdx st lastE err hfn hretry'
              hquota hidx']
            exact ⟨[RetryEvent.call st.req], rfl⟩
        · have hquota' : IsQuotaExceededError err = false := by
            cases hcase : IsQuotaExceededError err
            · rfl
            · exact absurd hcase hquota
          cases n with
          | zero =>
            rw [show (0 : Nat) + 1 = 1 from rfl]
            rw [show (1 : Nat) = 0 + 1 from rfl]
            simp only [withRetryGo, hfn, hretry', hquota']
            simp
          | succ n1 =>
            rw [withRetryGo_step_transient fn cfg M (n1 + 1) callIdx st lastE err
              (Nat.succ_ne_zero n1) hfn hretry' hquota']
            obtain ⟨suf, hsuf⟩ := ih (callIdx + 1)
              { req := st.req, delay := nextDelay cfg st err,
                fallbackIndex := st.fallbackIndex,
                trace := st.trace ++
                  [RetryEvent.call st.req, RetryEvent.sleep (sleepDelay st err)] } err
            refine ⟨[RetryEvent.call st.req, RetryEvent.sleep (sleepDelay st err)] ++ suf, ?_⟩
            rw [hsuf]
            simp

theorem withRetryGo_trace_head
    (fn : Nat → CompletionRequest → Except String CompletionResponse)
    (cfg : RetryConfig) (M n callIdx : Nat) (st : RetryState) (lastE : String) :
    ∃ suf, (withRetryGo fn cfg M (n + 1) callIdx st lastE).1.trace =
      st.trace ++ RetryEvent.call st.req :: suf := by
  cases hfn : fn callIdx st.req with
  | ok resp =>
    rw [withRetryGo_success fn cfg M n callIdx st lastE resp hfn]
    exact ⟨[], rfl⟩
  | error err =>
    by_cases hretry : IsRetryableError err = false
    · rw [withRetryGo_nonretryable fn cfg M n callIdx st lastE err hfn hretry]
      exact ⟨[], rfl⟩
    · have hretry' : IsRetryableError err = true := by
        cases hcase : IsRetryableError err
        · exact absurd hcase hretry
        · rfl
      by_cases hquota : IsQuotaExceededError err = true
      · by_cases hidx : st.fallbackIndex < cfg.fallbackModels.length
        · cases n with
          | zero =>
            rw [withRetryGo_quota_last fn cfg M callIdx st lastE err hfn hretry' hquota hidx]
            exact ⟨[], rfl⟩
          | succ n1 =>
            rw [withRetryGo_step_quota fn cfg M (n1 + 1) callIdx st lastE err
              (Nat.succ_ne_zero n1) hfn hretry' hquota hidx]
            obtain ⟨suf, hsuf⟩ := withRetryGo_trace_extends fn cfg M (n1 + 1) (callIdx + 1)
              { req := { st.req with
                  model := cfg.fallbackModels.getD st.fallbackIndex "" },
                delay := nextDelay cfg st err, fallbackIndex := st.fallbackIndex + 1,
                trace := st.trace ++
                  [RetryEvent.call st.req, RetryEvent.sleep (sleepDelay st err)] } err
            refine ⟨RetryEvent.sleep (sleepDelay st err) :: suf, ?_⟩
            rw [hsuf]
            simp
        · have hidx' : ¬ (0 < cfg.fallbackModels.length ∧
              st.fallbackIndex < cfg.fallbackModels.length) := by
            intro hcon
            exact hidx hcon.2
          rw [withRetryGo_quota_exhausted fn cfg M n callIdx st lastE err hfn hretry'
            hquota hidx']
          exact ⟨[], rfl⟩
      · have hquota' : IsQuotaExceededError err = false := by
          cases hcase : IsQuotaExceededError err
          · rfl
          · exact absurd hcase hquota
        cases n with
        | zero =>
          rw [show (0 : Nat) + 1 = 1 from rfl]
          rw [show (1 : Nat) = 0 + 1 from rfl]
          simp only [withRetryGo, hfn, hretry', hquota']
          simp
        | succ n1 =>
          rw [withRetryGo_step_transient fn cfg M (n1 + 1) callIdx st lastE err
            (Nat.succ_ne_zero n1) hfn hretry' hquota']
          obtain ⟨suf, hsuf⟩ := withRetryGo_trace_extends fn cfg M (n1 + 1) (callIdx + 1)
            { req := st.req, delay := nextDelay cfg st err,
              fallbackIndex := st.fallbackIndex,
              trace := st.trace ++
                [RetryEvent.call st.req, RetryEvent.sleep (sleepDelay st err)] } err
          refine ⟨RetryEvent.sleep (sleepDelay st err) :: suf, ?_⟩
          rw [hsuf]
          simp

theorem withRetryGo_frame (fn : Nat → CompletionRequest → Except String CompletionResponse)
    (cfg : RetryConfig) (M : Nat) (req0 : CompletionRequest) :
    ∀ (rem callIdx : Nat) (st : RetryState) (lastE : String),
      reqFrameOk req0 cfg st →
      reqFrameOk req0 cfg (withRetryGo fn cfg M rem callIdx st lastE).1 := by
  intro rem
  induction rem with
  | zero =>
    intro callIdx st lastE hst
    simpa [withRetryGo] using hst
  | succ n ih =>
    intro callIdx st lastE hst
    have hkeep : ∀ d tr, reqFrameOk req0 cfg
        { req := st.req, delay := d, fallbackIndex := st.fallbackIndex,
          trace := tr } := by
      intro d tr
      exact hst
    have hswap : ∀ d tr, reqFrameOk req0 cfg
        { req := { st.req with model := cfg.fallbackModels.getD st.fallbackIndex "" },
          delay := d, fallbackIndex := st.fallbackIndex + 1, trace := tr } := by
      intro d tr
      obtain ⟨h1, h2, h3, h4, h5⟩ := hst
      refine ⟨h1, h2, h3, ?_, ?_⟩
      · intro hcon
        exact absurd hcon (Nat.succ_ne_zero _)
      · intro _
        simp
    cases hfn : fn callIdx st.req with
    | ok resp =>
      rw [withRetryGo_success fn cfg M n callIdx st lastE resp hfn]
      exact hst
    | error err =>
      by_cases hretry : IsRetryableError err = false
      · rw [withRetryGo_nonretryable fn cfg M n callIdx st lastE err hfn hretry]
        exact hst
      · have hretry' : IsRetryableError err = true := by
          cases hcase : IsRetryableError err
          · exact absurd hcase hretry
          · rfl
        by_cases hquota : IsQuotaExceededError err = true
        · by_cases hidx : st.fallbackIndex < cfg.fallbackModels.length
          · cases n with
            | zero =>
              rw [withRetryGo_quota_last fn cfg M callIdx st lastE err hfn hretry'
                hquota hidx]
              exact hswap st.delay (st.trace ++ [RetryEvent.call st.req])
            | succ n1 =>
              rw [withRetryGo_step_quota fn cfg M (n1 + 1) callIdx st lastE err
                (Nat.succ_ne_zero n1) hfn hretry' hquota hidx]
              exact ih (callIdx + 1) _ err (hswap _ _)
          · have hidx' : ¬ (0 < cfg.fallbackModels.length ∧
                st.fallbackIndex < cfg.fallbackModels.length) := by
              intro hcon
              exact hidx hcon.2
            rw [withRetryGo_quota_exhausted fn cfg M n callIdx st lastE err hfn hretry'
              hquota hidx']
            exact hst
        · have hquota' : IsQuotaExceededError err = false := by
            cases hcase : IsQuotaExceededError err
            · rfl
            · exact absurd hcase hquota
          cases n with
          | zero =>
            rw [show (0 : Nat) + 1 = 1 from rfl]
            rw [show (1 : Nat) = 0 + 1 from rfl]
            simp only [withRetryGo, hfn, hretry', hquota']
            simpa using hst
          | succ n1 =>
            rw [withRetryGo_step_transient fn cfg M (n1 + 1) callIdx st lastE err
              (Nat.succ_ne_zero n1) hfn hretry' hquota']
            exact ih (callIdx + 1) _ err (hkeep _ _)

theorem withRetryGo_transient_run
    (fn : Nat → CompletionRequest → Except String CompletionResponse)
    (cfg : RetryConfig) (M : Nat) (e : Nat → String) (resp : CompletionResponse) :
    ∀ (k r callIdx : Nat) (st : RetryState) (lastE : String),
      k ≤ r →
      (∀ j, j < k → ∀ rq, fn (callIdx + j) rq = Except.error (e (callIdx + j))) →
      (∀ j, j < k → IsRetryableError (e (callIdx + j)) = true ∧
          IsQuotaExceededError (e (callIdx + j)) = false) →
      (∀ rq, fn (callIdx + k) rq = Except.ok resp) →
      (withRetryGo fn cfg M (r + 1) callIdx st lastE).2 = Except.ok resp ∧
      callCount (withRetryGo fn cfg M (r + 1) callIdx st lastE).1.trace =
        callCount st.trace + (k + 1) := by
  intro k
  induction k with
  | zero =>
    intro r callIdx st lastE hkr hfail hclass hsucc
    have hs := hsucc st.req
    rw [Nat.add_zero] at hs
    rw [withRetryGo_success fn cfg M r callIdx st lastE resp hs]
    refine ⟨rfl, ?_⟩
    simp [callCount, callModels_append, callModels]
  | succ n ih =>
    intro r callIdx st lastE hkr hfail hclass hsucc
    obtain ⟨r1, rfl⟩ : ∃ r1, r = r1 + 1 := ⟨r - 1, by omega⟩
    have hf0 : fn callIdx st.req = Except.error (e callIdx) := by
      have := hfail 0 (Nat.succ_pos n) st.req
      rwa [Nat.add_zero] at this
    have hc0 := hclass 0 (Nat.succ_pos n)
    rw [Nat.add_zero] at hc0
    rw [withRetryGo_step_transient fn cfg M (r1 + 1) callIdx st lastE (e callIdx)
      (Nat.succ_ne_zero r1) hf0 hc0.1 hc0.2]
    have hfail' : ∀ j, j < n → ∀ rq,
        fn (callIdx + 1 + j) rq = Except.error (e (callIdx + 1 + j)) := by
      intro j hj rq
      have := hfail (j + 1) (by omega) rq
      rwa [show callIdx + (j + 1) = callIdx + 1 + j from by omega] at this
    have hclass' : ∀ j, j < n → IsRetryableError (e (callIdx + 1 + j)) = true ∧
        IsQuotaExceededError (e (callIdx + 1 + j)) = false := by
      intro j hj
      have := hclass (j + 1) (by omega)
      rwa [show callIdx + (j + 1) = callIdx + 1 + j from by omega] at this
    have hsucc' : ∀ rq, fn (callIdx + 1 + n) rq = Except.ok resp := by
      intro rq
      have := hsucc rq
      rwa [show callIdx + (n + 1) = callIdx + 1 + n from by omega] at this
    have hih := ih r1 (callIdx + 1)
      { req := st.req, delay := nextDelay cfg st (e callIdx),
        fallbackIndex := st.fallbackIndex,
        trace := st.trace ++
          [RetryEvent.call st.req, RetryEvent.sleep (sleepDelay st (e callIdx))] }
      (e callIdx) (by omega) hfail' hclass' hsucc'
    refine ⟨hih.1, ?_⟩
    rw [hih.2]
    simp [callCount, callModels_append, callModels]
    omega

theorem withRetryGo_quota_run
    (fn : Nat → CompletionRequest → Except String CompletionResponse)
    (cfg : RetryConfig) (M : Nat) (qe : String → String)
    (hfn : ∀ i rq, fn i rq = Except.error (qe rq.model))
    (hclass : ∀ m1, IsRetryableError (qe m1) = true ∧ IsQuotaExceededError (qe m1) = true) :
    ∀ (k r callIdx : Nat) (st : RetryState) (lastE : String),
      st.fallbackIndex + k = cfg.fallbackModels.length →
      k ≤ r →
      (withRetryGo fn cfg M (r + 1) callIdx st lastE).2 =
        Except.error (qe (if k = 0 then st.req.model
          else cfg.fallbackModels.getD (cfg.fallbackModels.length - 1) "")) ∧
      callModels (withRetryGo fn cfg M (r + 1) callIdx st lastE).1.trace =
        callModels st.trace ++ st.req.model ::
          (List.range k).map (fun j => cfg.fallbackModels.getD (st.fallbackIndex + j) "") := by
  intro k
  induction k with
  | zero =>
    intro r callIdx st lastE hfull hkr
    have hidx' : ¬ (0 < cfg.fallbackModels.length ∧
        st.fallbackIndex < cfg.fallbackModels.length) := by
      intro hcon
      omega
    rw [withRetryGo_quota_exhausted fn cfg M r callIdx st lastE (qe st.req.model)
      (hfn callIdx st.req) (hclass st.req.model).1 (hclass st.req.model).2 hidx']
    refine ⟨rfl, ?_⟩
    simp [callModels_append, callModels]
  | succ n ih =>
    intro r callIdx st lastE hfull hkr
    obtain ⟨r1, rfl⟩ : ∃ r1, r = r1 + 1 := ⟨r - 1, by omega⟩
    have hidx : st.fallbackIndex < cfg.fallbackModels.length := by omega
    rw [withRetryGo_step_quota fn cfg M (r1 + 1) callIdx st lastE (qe st.req.model)
      (Nat.succ_ne_zero r1) (hfn callIdx st.req) (hclass st.req.model).1
      (hclass st.req.model).2 hidx]
    have hih := ih r1 (callIdx + 1)
      { req := { st.req with model := cfg.fallbackModels.getD st.fallbackIndex "" },
        delay := nextDelay cfg st (qe st.req.model),
        fallbackIndex := st.fallbackIndex + 1,
        trace := st.trace ++
          [RetryEvent.call st.req, RetryEvent.sleep (sleepDelay st (qe st.req.model))] }
      (qe st.req.model) (by simp; omega) (by omega)
    refine ⟨?_, ?_⟩
    · rw [hih.1]
      by_cases hn : n = 0
      · subst hn
        have hlast : st.fallbackIndex = cfg.fallbackModels.length - 1 := by omega
        simp [hlast]
      · simp [hn]
    · rw [hih.2, List.range_succ_eq_map, List.map_cons, List.map_map]
      have h1 : callModels (st.trace ++
          [RetryEvent.call st.req, RetryEvent.sleep (sleepDelay st (qe st.req.model))]) =
          callModels st.trace ++ [st.req.model] := by
        rw [callModels_append]
        rfl
      dsimp only
      rw [h1, List.append_assoc, List.singleton_append]
      congr 2
      rw [Nat.add_zero]
      congr 1
      apply List.map_congr_left
      intro j hj
      have harr : st.fallbackIndex + 1 + j = st.fallbackIndex + (j + 1) := by omega
      simp [Function.comp, harr]

/-- Claim C3: with `1 ≤ N ≤ MaxAttempts`, retryable-transient failures
(retryable per `IsRetryableError` and not quota-exceeded, which §4.4 handles
by its own higher-priority rule) on the first `N−1` invocations followed by
a success make `WithRetry` return that success after exactly `N` invocations
of the wrapped call; a non-retryable error on the first invocation is
returned immediately after exactly one invocation. -/
theorem withRetry_attempt_counts
    (fn : Nat → CompletionRequest → Except String CompletionResponse)
    (cfg : RetryConfig) (req : CompletionRequest) (N : Nat)
    (resp : CompletionResponse) (e : Nat → String)
    (hN1 : 1 ≤ N) (hN2 : N ≤ effMaxAttempts cfg)
    (hfail : ∀ j, j < N - 1 → ∀ rq, fn j rq = Except.error (e j))
    (hclass : ∀ j, j < N - 1 → IsRetryableError (e j) = true ∧
        IsQuotaExceededError (e j) = false)
    (hsucc : ∀ rq, fn (N - 1) rq = Except.ok resp) :
    ((withRetry fn req cfg).2 = Except.ok resp ∧
      callCount (withRetry fn req cfg).1.trace = N) ∧
    (∀ fn2 req2 cfg2 err2,
      (∀ rq, fn2 0 rq = Except.error err2) →
      IsRetryableError err2 = false →
      (withRetry fn2 req2 cfg2).2 = Except.error err2 ∧
      callCount (withRetry fn2 req2 cfg2).1.trace = 1) := by
  constructor
  · obtain ⟨r, hr⟩ : ∃ r, effMaxAttempts cfg = r + 1 :=
      ⟨effMaxAttempts cfg - 1, by have := effMaxAttempts_pos cfg; omega⟩
    unfold withRetry
    rw [hr]
    have hfail0 : ∀ j, j < N - 1 → ∀ rq, fn (0 + j) rq = Except.error (e (0 + j)) := by
      intro j hj rq
      rw [Nat.zero_add]
      exact hfail j hj rq
    have hclass0 : ∀ j, j < N - 1 → IsRetryableError (e (0 + j)) = true ∧
        IsQuotaExceededError (e (0 + j)) = false := by
      intro j hj
      rw [Nat.zero_add]
      exact hclass j hj
    have hsucc0 : ∀ rq, fn (0 + (N - 1)) rq = Except.ok resp := by
      intro rq
      rw [Nat.zero_add]
      exact hsucc rq
    have hrun := withRetryGo_transient_run fn cfg (r + 1) e resp (N - 1) r 0
      { req := req, delay := cfg.baseDelay, fallbackIndex := 0, trace := [] } ""
      (by omega) hfail0 hclass0 hsucc0
    refine ⟨hrun.1, ?_⟩
    rw [hrun.2]
    simp [callCount, callModels]
    omega
  · intro fn2 req2 cfg2 err2 hf2 hnr
    obtain ⟨r, hr⟩ : ∃ r, effMaxAttempts cfg2 = r + 1 :=
      ⟨effMaxAttempts cfg2 - 1, by have := effMaxAttempts_pos cfg2; omega⟩
    unfold withRetry
    rw [hr]
    rw [withRetryGo_nonretryable fn2 cfg2 (r + 1) r 0
      { req := req2, delay := cfg2.baseDelay, fallbackIndex := 0, trace := [] } "" err2
      (hf2 _) hnr]
    refine ⟨rfl, ?_⟩
    simp [callCount, callModels]

/-- Witness for claim C3: with the five-attempt default config, an oracle
failing twice with `connection timeout` succeeds on invocation 3 of 3, and
an `authentication failed` oracle is invoked exactly once. -/
theorem withRetry_attempt_counts_witness :
    ((withRetry fnTimeoutTwice reqOrig cfgDefault).2 = Except.ok respDone ∧
      callCount (withRetry fnTimeoutTwice reqOrig cfgDefault).1.trace = 3) ∧
    ((withRetry fnAuthFail reqOrig cfgDefault).2 = Except.error "authentication failed" ∧
      callCount (withRetry fnAuthFail reqOrig cfgDefault).1.trace = 1) := by
  have h := withRetry_attempt_counts fnTimeoutTwice cfgDefault reqOrig 3 respDone
    (fun _ => "connection timeout") (by omega) (by decide)
    (by intro j hj rq; simp [fnTimeoutTwice]; omega)
    (by intro j hj
        show IsRetryableError "connection timeout" = true ∧
          IsQuotaExceededError "connection timeout" = false
        decide)
    (fun rq => rfl)
  exact ⟨h.1, h.2 fnAuthFail reqOrig cfgDefault "authentication failed"
    (fun rq => rfl) (by decide)⟩

/-- Claim C4: under persistent quota-exceeded errors with
`FallbackModels = [A, B]`, the wrapped call is invoked with the original
model, then `A`, then `B`, the returned error is the one produced by the
invocation that used model `B`, and no further invocations occur. -/
theorem withRetry_quota_fallback_sequence
    (fn : Nat → CompletionRequest → Except String CompletionResponse)
    (cfg : RetryConfig) (req : CompletionRequest) (A B : String) (qe : String → String)
    (hfb : cfg.fallbackModels = [A, B])
    (hM : 3 ≤ effMaxAttempts cfg)
    (hfn : ∀ i rq, fn i rq = Except.error (qe rq.model))
    (hclass : ∀ m1, IsRetryableError (qe m1) = true ∧
        IsQuotaExceededError (qe m1) = true) :
    (withRetry fn req cfg).2 = Except.error (qe B) ∧
    callModels (withRetry fn req cfg).1.trace = [req.model, A, B] := by
  obtain ⟨r, hr⟩ : ∃ r, effMaxAttempts cfg = r + 1 := ⟨effMaxAttempts cfg - 1, by omega⟩
  unfold withRetry
  rw [hr]
  have hrun := withRetryGo_quota_run fn cfg (r + 1) qe hfn hclass 2 r 0
    { req := req, delay := cfg.baseDelay, fallbackIndex := 0, trace := [] } ""
    (by simp [hfb]) (by omega)
  refine ⟨?_, ?_⟩
  · rw [hrun.1]
    simp [hfb]
  · rw [hrun.2]
    rw [show List.range 2 = [0, 1] from rfl]
    simp [callModels, hfb]

/-- Witness for claim C4: the always-quota oracle against
`FallbackModels = ["fallback-a", "fallback-b"]` is invoked with the
original model, then each fallback, and the quota error is returned. -/
theorem withRetry_quota_fallback_sequence_witness :
    (withRetry fnQuotaAlways reqOrig cfgTwoFallbacks).2 =
      Except.error "quota exceeded" ∧
    callModels (withRetry fnQuotaAlways reqOrig cfgTwoFallbacks).1.trace =
      [reqOrig.model, "fallback-a", "fallback-b"] :=
  withRetry_quota_fallback_sequence fnQuotaAlways cfgTwoFallbacks reqOrig
    "fallback-a" "fallback-b" (fun _ => "quota exceeded") rfl (by decide)
    (fun i rq => rfl)
    (by intro m1
        show IsRetryableError "quota exceeded" = true ∧
          IsQuotaExceededError "quota exceeded" = true
        decide)

/-- Counterexample to claim C5 as stated: a quota failure with a fallback
model available is followed by a backoff sleep of 31 seconds —
`ParseRateLimitDelay` treats quota errors as rate-limited, defaulting to
30s, plus the 1s buffer — before the retry with the fallback model, so the
fallback retry does not happen "without any delay". -/
theorem withRetry_quota_sleep_counterexample :
    (withRetry fnQuotaAlways reqOrig cfgOneFallback).1.trace =
      [RetryEvent.call reqOrig, RetryEvent.sleep 31000000000,
       RetryEvent.call { reqOrig with model := "fallback-a" }] ∧
    ParseRateLimitDelay "quota exceeded" + nsPerSecond = 31000000000 := by
  constructor
  · decide
  · decide

/-- Claim C5 (amended): on a quota-exceeded error with an untried fallback
model remaining and an attempt left, `WithRetry` swaps in the next fallback
model and retries it — but only after performing the backoff sleep: the
parsed provider-suggested delay plus a one-second buffer when the error
text yields one (quota errors always match the rate-limit check, giving the
30s default), the current backoff delay otherwise. -/
theorem withRetry_quota_fallback_sleeps
    (fn : Nat → CompletionRequest → Except String CompletionResponse)
    (cfg : RetryConfig) (req : CompletionRequest) (A : String) (rest : List String)
    (qe : String)
    (hfb : cfg.fallbackModels = A :: rest)
    (hM : 2 ≤ effMaxAttempts cfg)
    (hfn : ∀ rq, fn 0 rq = Except.error qe)
    (hretry : IsRetryableError qe = true)
    (hquota : IsQuotaExceededError qe = true) :
    ∃ suf, (withRetry fn req cfg).1.trace =
      RetryEvent.call req ::
      RetryEvent.sleep (if 0 < ParseRateLimitDelay qe
        then ParseRateLimitDelay qe + nsPerSecond else cfg.baseDelay) ::
      RetryEvent.call { req with model := A } :: suf := by
  obtain ⟨m, hm⟩ : ∃ m, effMaxAttempts cfg = (m + 1) + 1 :=
    ⟨effMaxAttempts cfg - 2, by omega⟩
  have hA : cfg.fallbackModels.getD 0 "" = A := by
    rw [hfb]
    rfl
  unfold withRetry
  rw [hm]
  set st0 : RetryState :=
    { req := req, delay := cfg.baseDelay, fallbackIndex := 0, trace := [] } with hst0
  rw [withRetryGo_step_quota fn cfg ((m + 1) + 1) (m + 1) 0 st0 "" qe
    (Nat.succ_ne_zero m) (hfn _) hretry hquota (by simp [hst0, hfb])]
  obtain ⟨suf, hsuf⟩ := withRetryGo_trace_head fn cfg ((m + 1) + 1) m 1
    { req := { st0.req with model := cfg.fallbackModels.getD st0.fallbackIndex "" },
      delay := nextDelay cfg st0 qe, fallbackIndex := st0.fallbackIndex + 1,
      trace := st0.trace ++
        [RetryEvent.call st0.req, RetryEvent.sleep (sleepDelay st0 qe)] } qe
  rw [hsuf]
  refine ⟨suf, ?_⟩
  simp [hst0, sleepDelay, hfb]

/-- Witness for claim C5 (amended): the concrete quota run sleeps the
31-second delay between the original attempt and the fallback attempt. -/
theorem withRetry_quota_fallback_sleeps_witness :
    ∃ suf, (withRetry fnQuotaAlways reqOrig cfgOneFallback).1.trace =
      RetryEvent.call reqOrig ::
      RetryEvent.sleep (if 0 < ParseRateLimitDelay "quota exceeded"
        then ParseRateLimitDelay "quota exceeded" + nsPerSecond
        else cfgOneFallback.baseDelay) ::
      RetryEvent.call { reqOrig with model := "fallback-a" } :: suf :=
  withRetry_quota_fallback_sleeps fnQuotaAlways cfgOneFallback reqOrig
    "fallback-a" [] "quota exceeded" rfl (by decide) (fun rq => rfl)
    (by decide) (by decide)

/-- Counterexample to claim C10 as stated: with `MaxAttempts = 1` and
`FallbackModels = ["fallback-a"]`, a quota failure on the (final) first
attempt swaps `fallback-a` into the caller's request, yet the wrapped call
is only ever invoked with the original model — the request ends up holding
a fallback model that was never tried. -/
theorem withRetry_model_swap_counterexample :
    (withRetry fnQuotaAlways reqOrig cfgOneAttempt).1.req.model = "fallback-a" ∧
    callModels (withRetry fnQuotaAlways reqOrig cfgOneAttempt).1.trace =
      ["orig-model"] ∧
    (withRetry fnQuotaAlways reqOrig cfgOneAttempt).2 =
      Except.error (failedMsg 1 "quota exceeded") := by
  refine ⟨by decide, by decide, rfl⟩

/-- Claim C10 (amended): `WithRetry` mutates the caller's request in place:
on return every field other than `Model` is unchanged, and `Model` holds
the original model when no quota fallback swap occurred, otherwise the most
recently swapped-in entry of `FallbackModels` (which is the last fallback
tried, except when the quota failure hit the final attempt, in which case
the swapped-in model was never invoked). -/
theorem withRetry_mutates_model_frame
    (fn : Nat → CompletionRequest → Except String CompletionResponse)
    (req : CompletionRequest) (cfg : RetryConfig) :
    (withRetry fn req cfg).1.req.messages = req.messages ∧
    (withRetry fn req cfg).1.req.maxTokens = req.maxTokens ∧
    (withRetry fn req cfg).1.req.temperature = req.temperature ∧
    ((withRetry fn req cfg).1.fallbackIndex = 0 →
      (withRetry fn req cfg).1.req.model = req.model) ∧
    (0 < (withRetry fn req cfg).1.fallbackIndex →
      (withRetry fn req cfg).1.req.model =
        cfg.fallbackModels.getD ((withRetry fn req cfg).1.fallbackIndex - 1) "") := by
  have h := withRetryGo_frame fn cfg (effMaxAttempts cfg) req (effMaxAttempts cfg) 0
    { req := req, delay := cfg.baseDelay, fallbackIndex := 0, trace := [] } ""
    (by refine ⟨rfl, rfl, rfl, fun _ => rfl, ?_⟩
        intro hcon
        simp at hcon)
  exact h

/-- Witness for claim C10 (amended): in the single-attempt quota run the
request keeps its temperature and ends up holding the swapped-in fallback
model. -/
theorem withRetry_mutates_model_frame_witness :
    (withRetry fnQuotaAlways reqOrig cfgOneAttempt).1.req.temperature =
      reqOrig.temperature ∧
    (withRetry fnQuotaAlways reqOrig cfgOneAttempt).1.req.model =
      cfgOneAttempt.fallbackModels.getD
        ((withRetry fnQuotaAlways reqOrig cfgOneAttempt).1.fallbackIndex - 1) "" := by
  refine ⟨(withRetry_mutates_model_frame fnQuotaAlways reqOrig cfgOneAttempt).2.2.1, ?_⟩
  exact (withRetry_mutates_model_frame fnQuotaAlways reqOrig cfgOneAttempt).2.2.2.2
    (by decide)

/-- Counterexample to claim C7 as stated, on both breaking paths:
`convGuard` satisfies the invariant (4 running tokens = 1 + 3), but the
failing `TruncateToFit` removes the user message while leaving
`estimatedTokens` at 4, so the resulting state violates the invariant
(4 ≠ 1); and on a consistent one-message conversation, an `AddMessage`
whose estimation call fails (e.g. `ModelNotFound` for the default model)
appends the message while leaving the count stale (1 ≠ 2). -/
theorem tokenInvariant_counterexample :
    (tokenInvariant charEst convGuard ∧
      (truncateToFitConv charEst true convGuard).1.messages = [msgSys] ∧
      ¬ tokenInvariant charEst (truncateToFitConv charEst true convGuard).1) ∧
    (tokenInvariant charEst
        { messages := [msgSys], maxTokens := 50, estimatedTokens := 1 } ∧
      (addMessage (some (fun _ => Except.error "no provider found for model"))
          { messages := [msgSys], maxTokens := 50, estimatedTokens := 1 }
          msgUserSmall).messages = [msgSys, msgUserSmall] ∧
      ¬ tokenInvariant charEst
        (addMessage (some (fun _ => Except.error "no provider found for model"))
          { messages := [msgSys], maxTokens := 50, estimatedTokens := 1 }
          msgUserSmall)) := by
  have ht : truncateToFit charEst convGuard.maxTokens true convGuard.messages =
      ([msgSys], TruncResult.tokenLimitExceeded) := by
    rw [truncateToFit]
    decide
  have heq : truncateToFitConv charEst true convGuard =
      ({ messages := [msgSys], maxTokens := 2, estimatedTokens := 4 },
        TruncResult.tokenLimitExceeded) := by
    unfold truncateToFitConv
    rw [ht]
    rfl
  refine ⟨⟨by decide, ?_, ?_⟩, by decide, by decide, by decide⟩
  · rw [heq]
  · rw [heq]
    decide

theorem applyDefaults_ok_fields (cfg : ClientConfig) (req : CompletionRequest)
    (hok : (applyDefaults cfg req).2 = Except.ok ()) :
    (req.temperature = 0 →
      (applyDefaults cfg req).1.temperature = cfg.defaultTemperature) ∧
    (req.maxTokens = 0 → (applyDefaults cfg req).1.maxTokens = cfg.defaultMaxTokens) ∧
    (cfg.defaultTemperature ≠ 0 → (applyDefaults cfg req).1.temperature ≠ 0) := by
  unfold applyDefaults at hok ⊢
  by_cases hme : req.model = "" ∧ cfg.defaultModel = ""
  · simp [hme] at hok
  · simp only [if_neg hme] at hok ⊢
    by_cases hm : req.model = "" <;> by_cases hmax : req.maxTokens = 0 <;>
      by_cases htmp : req.temperature = 0 <;>
      simp [hm, hmax, htmp] <;> tauto

/-- Claim C9: on the no-middleware `Complete` dispatch path, a request with
`Temperature == 0` is forwarded to the provider with the client-wide
`DefaultTemperature` (and `MaxTokens == 0` with `DefaultMaxTokens`): an
unset parameter and an explicit zero are indistinguishable, so with a
non-zero configured default the provider can never receive an effective
temperature of exactly zero. -/
theorem applyDefaults_zero_temperature (cfg : ClientConfig)
    (getProv : String → Option (CompletionRequest → Except String CompletionResponse))
    (req dispatched : CompletionRequest) (resp : CompletionResponse)
    (h : clientComplete cfg getProv [] req = Except.ok (dispatched, resp)) :
    dispatched = (applyDefaults cfg req).1 ∧
    (req.temperature = 0 → dispatched.temperature = cfg.defaultTemperature) ∧
    (req.maxTokens = 0 → dispatched.maxTokens = cfg.defaultMaxTokens) ∧
    (cfg.defaultTemperature ≠ 0 → dispatched.temperature ≠ 0) := by
  unfold clientComplete at h
  cases hd : applyDefaults cfg req with
  | mk reqD res =>
    rw [hd] at h
    cases res with
    | error e => simp at h
    | ok u =>
      cases u
      dsimp only at h
      cases hp : getProv reqD.model with
      | none => rw [hp] at h; simp at h
      | some prov =>
        rw [hp] at h
        simp only [applyReqMiddleware] at h
        cases hpr : prov reqD with
        | error e => rw [hpr] at h; simp at h
        | ok r2 =>
          rw [hpr] at h
          simp at h
          obtain ⟨h1, h2⟩ := h
          have hone : dispatched = (applyDefaults cfg req).1 := by
            rw [hd]
            exact h1.symm
          have hok : (applyDefaults cfg req).2 = Except.ok () := by
            rw [hd]
          have hf := applyDefaults_ok_fields cfg req hok
          subst hone
          exact ⟨by rw [hd], hf.1, hf.2.1, hf.2.2⟩

/-- Witness for claim C9: under `cfgClient` (default temperature `7/10`),
the request with zero temperature and zero max tokens is dispatched with
temperature `7/10` and max tokens 4096, in particular a non-zero
temperature. -/
theorem applyDefaults_zero_temperature_witness :
    reqDispatched.temperature = cfgClient.defaultTemperature ∧
    reqDispatched.maxTokens = cfgClient.defaultMaxTokens ∧
    reqDispatched.temperature ≠ 0 := by
  have heq : clientComplete cfgClient getProvOne [] reqZeroTemp =
      Except.ok (reqDispatched, respEcho) := rfl
  have h := applyDefaults_zero_temperature cfgClient getProvOne reqZeroTemp
    reqDispatched respEcho heq
  exact ⟨h.2.1 rfl, h.2.2.1 rfl, h.2.2.2 (by simp [cfgClient])⟩

/-- Counterexample to claim C2 as stated: for the replicate adapter,
`Stream` delivers exactly one chunk whose finish reason is already set
(`"stop"`), so the chunk is final and the concatenation of the non-final
deltas is the empty string, while `Complete` for the identical request
returns `"hello"`. -/
theorem replicate_stream_nonfinal_counterexample :
    (replicateComplete backendHello reqOrig).toOption.map
        (fun r => (r.message.map Message.textData).getD "") = some "hello" ∧
    (replicateStream backendHello reqOrig).toOption.map concatNonFinalDeltas =
      some "" ∧
    (replicateStream backendHello reqOrig).toOption.map
        (fun chunks => chunks.map StreamResponse.finishReason) = some ["stop"] ∧
    ("" : String) ≠ "hello" := by
  refine ⟨rfl, rfl, rfl, by decide⟩

/-- Claim C2 (amended): for the replicate adapter against any deterministic
backend, the concatenation of the delta texts of all streamed chunks equals
the text the non-streaming `Complete` returns for the identical request;
the adapter simulates streaming with a single chunk that carries the entire
text and a non-empty finish reason, so the final chunk must be included in
the concatenation (over non-final chunks alone it is empty). -/
theorem replicate_stream_concat_all_deltas
    (backend : CompletionRequest → Except String Prediction)
    (req : CompletionRequest) (chunks : List StreamResponse)
    (resp : CompletionResponse)
    (hs : replicateStream backend req = Except.ok chunks)
    (hc : replicateComplete backend req = Except.ok resp) :
    concatAllDeltas chunks = (resp.message.map Message.textData).getD "" ∧
    chunks.length = 1 ∧
    ∀ ch ∈ chunks, ch.finishReason ≠ "" := by
  unfold replicateStream at hs
  rw [hc] at hs
  simp at hs
  subst hs
  have hfr : resp.finishReason ≠ "" := by
    unfold replicateComplete at hc
    cases hb : backend req with
    | error e => rw [hb] at hc; simp at hc
    | ok p =>
      rw [hb] at hc
      simp at hc
      rw [← hc]
      unfold convertResponse
      split
      · simp
      · split <;> simp
  refine ⟨?_, rfl, ?_⟩
  · cases hm : resp.message with
    | none => simp [concatAllDeltas, deltaText, hm, String.join]
    | some msg => simp [concatAllDeltas, deltaText, hm, String.join]
  · intro ch hch
    simp at hch
    rw [hch]
    exact hfr

/-- Witness for claim C2 (amended): against the deterministic `"hello"`
backend, the all-chunk concatenation equals the Complete text and the
stream is a single terminal chunk. -/
theorem replicate_stream_concat_all_deltas_witness :
    concatAllDeltas chunksHello =
      (respHello.message.map Message.textData).getD "" ∧
    chunksHello.length = 1 :=
  ⟨(replicate_stream_concat_all_deltas backendHello reqOrig chunksHello respHello
      rfl rfl).1,
   (replicate_stream_concat_all_deltas backendHello reqOrig chunksHello respHello
      rfl rfl).2.1⟩

end AiUtil
